import Mathlib

/-!
Shallow embedding of the markdown-to-HTML core of `src/generator.rs` of the
static blog generator.  Strings are modelled as `List Char`, matching Rust's
`str::chars()` iteration.  Each Rust loop that contains an inner scanning
loop (the inline-markup passes) is transcribed as a structurally recursive
state machine whose mode records which inner loop, if any, is currently
active and what it has accumulated so far; this is the peekable-iterator
control flow of the source written out as explicit modes.
-/

namespace Blog

/-- Double-quote character (written via `Char.ofNat` so that no string
literal is needed inside character syntax). -/
def dq : Char := Char.ofNat 34

/-- Single-quote character. -/
def sq : Char := Char.ofNat 39

/-- Backtick character. -/
def btick : Char := Char.ofNat 96

/-- Rust `str::replace` with a one-character pattern: every occurrence of
`pat` is replaced by the string `rep`. -/
def replaceChar (pat : Char) (rep : List Char) : List Char → List Char
  | [] => []
  | c :: rest => (if c = pat then rep else [c]) ++ replaceChar pat rep rest

/-- Embeds `escape_html` (generator.rs lines 422-428): five sequential
`replace` calls, innermost (ampersand) first, exactly in source order. -/
def escape_html (text : List Char) : List Char :=
  replaceChar sq "&#39;".data
    (replaceChar dq "&quot;".data
      (replaceChar '>' "&gt;".data
        (replaceChar '<' "&lt;".data
          (replaceChar '&' "&amp;".data text))))

/-- Mode of the `parse_bold` loop (generator.rs lines 234-268): `none` is
the outer copying loop, `some acc` is the inner loop collecting
`bold_content` after an opening `**` has been consumed. -/
def boldAux : List Char → Option (List Char) → List Char
  | [], none => []
  | [], some acc => '*' :: '*' :: acc
  | [c], none => [c]
  | [c], some acc => '*' :: '*' :: (acc ++ [c])
  | c1 :: c2 :: rest, none =>
    if c1 = '*' ∧ c2 = '*' then boldAux rest (some [])
    else c1 :: boldAux (c2 :: rest) none
  | c1 :: c2 :: rest, some acc =>
    if c1 = '*' ∧ c2 = '*' then
      "<strong>".data ++ escape_html acc ++ "</strong>".data ++ boldAux rest none
    else boldAux (c2 :: rest) (some (acc ++ [c1]))

/-- Embeds `parse_bold` (generator.rs lines 234-268). -/
def parse_bold (text : List Char) : List Char := boldAux text none

/-- Mode of the `parse_italic` loop (generator.rs lines 270-301): `none` is
the outer copying loop, `some acc` the inner loop collecting
`italic_content` after an opening single `*`.  The closing test is a `*`
whose successor is not another `*`; the peeked successor is not consumed,
exactly as in the source. -/
def italAux : List Char → Option (List Char) → List Char
  | [], none => []
  | [], some acc => '*' :: acc
  | c :: rest, none =>
    if c = '*' ∧ rest.head? ≠ some '*' then italAux rest (some [])
    else c :: italAux rest none
  | c :: rest, some acc =>
    if c = '*' ∧ rest.head? ≠ some '*' then
      "<em>".data ++ escape_html acc ++ "</em>".data ++ italAux rest none
    else italAux rest (some (acc ++ [c]))

/-- Embeds `parse_italic` (generator.rs lines 270-301). -/
def parse_italic (text : List Char) : List Char := italAux text none

/-- Mode of the `parse_link` loop (generator.rs lines 303-359): copying,
collecting `link_text` after `[`, or collecting `url` after `](`. -/
inductive LinkMode where
  | copy
  | intext (acc : List Char)
  | inurl (ltext acc : List Char)

/-- State machine for `parse_link` (generator.rs lines 303-359).  On a
missing closing delimiter every consumed character is re-emitted literally,
as in the source's fallback branches. -/
def linkAux : List Char → LinkMode → List Char
  | [], .copy => []
  | [], .intext acc => '[' :: acc
  | [], .inurl ltext acc => '[' :: (ltext ++ (']' :: '(' :: acc))
  | c :: rest, .copy =>
    if c = '[' then linkAux rest (.intext [])
    else c :: linkAux rest .copy
  | [c], .intext acc =>
    if c = ']' then '[' :: (acc ++ [']'])
    else '[' :: (acc ++ [c])
  | c1 :: c2 :: rest, .intext acc =>
    if c1 = ']' then
      if c2 = '(' then linkAux rest (.inurl acc [])
      else ('[' :: (acc ++ [']'])) ++ linkAux (c2 :: rest) .copy
    else linkAux (c2 :: rest) (.intext (acc ++ [c1]))
  | c :: rest, .inurl ltext acc =>
    if c = ')' then
      ("<a href=\"".data ++ escape_html acc ++ "\">".data ++
        escape_html ltext ++ "</a>".data) ++ linkAux rest .copy
    else linkAux rest (.inurl ltext (acc ++ [c]))

/-- Embeds `parse_link` (generator.rs lines 303-359). -/
def parse_link (text : List Char) : List Char := linkAux text .copy

/-- Mode of the `parse_image` loop (generator.rs lines 361-420): copying,
collecting `alt_text` after `![`, or collecting `url` after `](`. -/
inductive ImgMode where
  | copy
  | inalt (acc : List Char)
  | inurl (alt acc : List Char)

/-- State machine for `parse_image` (generator.rs lines 361-420).  The
trigger is a `!` immediately followed by `[`, both consumed. -/
def imgAux : List Char → ImgMode → List Char
  | [], .copy => []
  | [], .inalt acc => '!' :: '[' :: acc
  | [], .inurl alt acc => '!' :: '[' :: (alt ++ (']' :: '(' :: acc))
  | [c], .copy => [c]
  | c1 :: c2 :: rest, .copy =>
    if c1 = '!' ∧ c2 = '[' then imgAux rest (.inalt [])
    else c1 :: imgAux (c2 :: rest) .copy
  | [c], .inalt acc =>
    if c = ']' then '!' :: '[' :: (acc ++ [']'])
    else '!' :: '[' :: (acc ++ [c])
  | c1 :: c2 :: rest, .inalt acc =>
    if c1 = ']' then
      if c2 = '(' then imgAux rest (.inurl acc [])
      else ('!' :: '[' :: (acc ++ [']'])) ++ imgAux (c2 :: rest) .copy
    else imgAux (c2 :: rest) (.inalt (acc ++ [c1]))
  | c :: rest, .inurl alt acc =>
    if c = ')' then
      ("<img src=\"".data ++ escape_html acc ++ "\" alt=\"".data ++
        escape_html alt ++ "\" />".data) ++ imgAux rest .copy
    else imgAux rest (.inurl alt (acc ++ [c]))

/-- Embeds `parse_image` (generator.rs lines 361-420). -/
def parse_image (text : List Char) : List Char := imgAux text .copy

/-- Embeds `process_inline_markdown` (generator.rs lines 222-232): the four
passes run sequentially in the fixed order image, link, bold, italic, each
pass rebuilding the whole string before the next runs. -/
def process_inline_markdown (text : List Char) : List Char :=
  parse_italic (parse_bold (parse_link (parse_image text)))

/-- Rust `str::strip_prefix` on character lists: `some` of the remainder
when `p` is a prefix of the second argument, otherwise `none`. -/
def stripPfx : List Char → List Char → Option (List Char)
  | [], l => some l
  | _ :: _, [] => none
  | p :: ps, c :: cs => if c = p then stripPfx ps cs else none

/-- Rust `str::starts_with` on character lists. -/
def startsWith (p l : List Char) : Bool := (stripPfx p l).isSome

/-- Rust `str::trim`: leading and trailing whitespace removed (modelled
with `Char.isWhitespace`, which covers the whitespace the generator ever
sees: space, tab, carriage return, newline). -/
def trim (l : List Char) : List Char :=
  ((l.dropWhile Char.isWhitespace).reverse.dropWhile Char.isWhitespace).reverse

/-- Strips one trailing carriage return, as Rust `str::lines` does for each
newline-terminated line. -/
def stripCR (l : List Char) : List Char :=
  if l.getLast? = some '\r' then l.dropLast else l

/-- Accumulating worker for `lines`: `acc` is the current line collected so
far. -/
def linesAux : List Char → List Char → List (List Char)
  | acc, [] => if acc = [] then [] else [acc]
  | acc, c :: rest =>
    if c = '\n' then stripCR acc :: linesAux [] rest
    else linesAux (acc ++ [c]) rest

/-- Rust `str::lines`: splits at `\n` (also eating a preceding `\r`); a
final line terminator produces no trailing empty line. -/
def lines (s : List Char) : List (List Char) := linesAux [] s

/-- One iteration of the `markdown_to_html` loop body (generator.rs lines
167-217) on state `(in_code_block, code_content)`; returns the new state
and the HTML emitted for this line. -/
def mdLine (st : Bool × List Char) (line : List Char) : (Bool × List Char) × List Char :=
  if startsWith "```".data line then
    if st.1 then
      ((false, []),
        "<pre><code>".data ++ escape_html st.2 ++ "</code></pre>\n".data)
    else ((true, st.2), [])
  else if st.1 then
    ((true, st.2 ++ line ++ ['\n']), [])
  else
    let trimmed := trim line
    match stripPfx "### ".data trimmed with
    | some c => (st, "<h3>".data ++ process_inline_markdown c ++ "</h3>\n".data)
    | none =>
      match stripPfx "## ".data trimmed with
      | some c => (st, "<h2>".data ++ process_inline_markdown c ++ "</h2>\n".data)
      | none =>
        match stripPfx "# ".data trimmed with
        | some c => (st, "<h1>".data ++ process_inline_markdown c ++ "</h1>\n".data)
        | none =>
          match stripPfx "- ".data trimmed with
          | some c => (st, "<li>".data ++ process_inline_markdown c ++ "</li>\n".data)
          | none =>
            if trimmed = [] then (st, [])
            else (st, "<p>".data ++ process_inline_markdown trimmed ++ "</p>\n".data)

/-- Folds `mdLine` over the lines, concatenating the emitted HTML; the
buffer still held in the final state is discarded, as in the source (the
function returns only `html`). -/
def mdLines (st : Bool × List Char) : List (List Char) → List Char
  | [] => []
  | l :: ls =>
    let r := mdLine st l
    r.2 ++ mdLines r.1 ls

/-- Embeds `markdown_to_html` (generator.rs lines 162-220). -/
def markdown_to_html (markdown : List Char) : List Char :=
  mdLines (false, []) (lines markdown)

/-- Rust `str::trim_matches` with a one-character pattern: all leading and
all trailing occurrences of `pat` removed (repeatedly, not just one pair). -/
def trim_matches (pat : Char) (l : List Char) : List Char :=
  ((l.dropWhile (· == pat)).reverse.dropWhile (· == pat)).reverse

/-- The `Post` record (generator.rs lines 6-13). -/
structure Post where
  title : List Char
  slug : List Char
  date : List Char
  excerpt : List Char
  html_content : List Char
deriving DecidableEq

/-- The frontmatter/body split loop of `parse_post` (generator.rs lines
112-128): while `in_frontmatter`, a line equal to `---` flips the flag and
is dropped; other lines are appended (plus `\n`) to the frontmatter string,
and once the flag is cleared to the body string. -/
def fmBody : Bool → List (List Char) → List Char × List Char
  | _, [] => ([], [])
  | true, l :: ls =>
    if l = "---".data then fmBody false ls
    else
      let p := fmBody true ls
      (l ++ '\n' :: p.1, p.2)
  | false, l :: ls =>
    let p := fmBody false ls
    (p.1, l ++ '\n' :: p.2)

/-- One iteration of the frontmatter key loop (generator.rs lines 135-143):
the accumulator is `(title, date, excerpt)` and a matching line overwrites
its field with the quote-trimmed remainder; the three prefixes are tested
in source order and unknown lines leave the accumulator unchanged. -/
def fmStep (acc : List Char × List Char × List Char) (line : List Char) :
    List Char × List Char × List Char :=
  match stripPfx "title: ".data line with
  | some v => (trim_matches dq v, acc.2.1, acc.2.2)
  | none =>
    match stripPfx "date: ".data line with
    | some v => (acc.1, trim_matches dq v, acc.2.2)
    | none =>
      match stripPfx "excerpt: ".data line with
      | some v => (acc.1, acc.2.1, trim_matches dq v)
      | none => acc

/-- Embeds `parse_post` (generator.rs lines 104-160).  The `slug` argument
stands for the already-computed `path.file_stem()` fallback chain, whose
filesystem-path handling is outside the rendering core; no claim concerns
it.  The first line must be exactly `---`, otherwise `none`. -/
def parse_post (slug content : List Char) : Option Post :=
  match lines content with
  | [] => none
  | first :: rest =>
    if first = "---".data then
      let fb := fmBody true rest
      let tde := (lines fb.1).foldl fmStep ([], [], [])
      some { title := tde.1, slug := slug, date := tde.2.1, excerpt := tde.2.2,
             html_content := markdown_to_html fb.2 }
    else none

/-- Modelled from the spec (amended form of its block rules): the Normal
state classification applied to an already-trimmed line, in the fixed
priority order h3, h2, h1, list item, paragraph, blank, the content after
the matched prefix being taken from the trimmed line itself. -/
def classifyNormal (t : List Char) : List Char :=
  match stripPfx "### ".data t with
  | some c => "<h3>".data ++ process_inline_markdown c ++ "</h3>\n".data
  | none =>
    match stripPfx "## ".data t with
    | some c => "<h2>".data ++ process_inline_markdown c ++ "</h2>\n".data
    | none =>
      match stripPfx "# ".data t with
      | some c => "<h1>".data ++ process_inline_markdown c ++ "</h1>\n".data
      | none =>
        match stripPfx "- ".data t with
        | some c => "<li>".data ++ process_inline_markdown c ++ "</li>\n".data
        | none =>
          if t = [] then []
          else "<p>".data ++ process_inline_markdown t ++ "</p>\n".data

/-- The characters the renderer ever dispatches on: heading and list
markers, inline delimiters, and the code-fence backtick. -/
def mdSpecials : List Char :=
  ['#', '-', '*', '[', ']', '(', ')', '!', btick]

/-- A string that is empty or ends in a newline character. -/
def endsNL (l : List Char) : Prop := l = [] ∨ ∃ t, l = t ++ ['\n']

/-- Stripping a prefix from a string that literally starts with it yields
the remainder. -/
theorem stripPfx_append : ∀ (p l : List Char), stripPfx p (p ++ l) = some l
  | [], l => rfl
  | c :: ps, l => by simp [stripPfx, stripPfx_append ps l]

/-- If the head character of the pattern does not occur in the string at
all, the prefix test fails. -/
theorem stripPfx_head_none {c : Char} {l : List Char} (p : List Char)
    (hp : p.head? = some c) (h : c ∉ l) : stripPfx p l = none := by
  cases p with
  | nil => simp at hp
  | cons c0 ps =>
    cases l with
    | nil => rfl
    | cons d ds =>
      have hc0 : c0 = c := by simpa using hp
      have hne : d ≠ c0 := by
        intro e
        exact h (by rw [← hc0, ← e]; exact List.mem_cons_self d ds)
      simp [stripPfx, hne]

/-- `startsWith` variant of `stripPfx_head_none`. -/
theorem startsWith_false {c : Char} {l : List Char} (p : List Char)
    (hp : p.head? = some c) (h : c ∉ l) : startsWith p l = false := by
  unfold startsWith
  rw [stripPfx_head_none p hp h]
  rfl

/-- Membership survives `dropWhile`. -/
theorem mem_of_mem_dropWhile {p : Char → Bool} {c : Char} :
    ∀ {l : List Char}, c ∈ l.dropWhile p → c ∈ l := by
  intro l
  induction l with
  | nil => simp
  | cons d ds ih =>
    intro h
    rw [List.dropWhile_cons] at h
    by_cases hd : p d = true
    · simp only [hd, if_true] at h
      exact List.mem_cons_of_mem _ (ih h)
    · simp only [hd, if_false] at h
      exact h

/-- Every character of the trimmed line occurs in the original line. -/
theorem mem_of_mem_trim {c : Char} {l : List Char} (h : c ∈ trim l) : c ∈ l := by
  unfold trim at h
  rw [List.mem_reverse] at h
  have h2 := mem_of_mem_dropWhile h
  rw [List.mem_reverse] at h2
  exact mem_of_mem_dropWhile h2

/-- The last element of a list is a member of it. -/
theorem mem_of_getLast?_eq {c : Char} {l : List Char} (h : l.getLast? = some c) :
    c ∈ l := by
  have hm : c ∈ l.getLast? := h
  rcases List.mem_getLast?_eq_getLast hm with ⟨hne, rfl⟩
  exact List.getLast_mem hne

/-- `stripCR` is the identity on lines without a carriage return. -/
theorem stripCR_id {l : List Char} (h : '\r' ∉ l) : stripCR l = l := by
  by_cases hc : l.getLast? = some '\r'
  · exact absurd (mem_of_getLast?_eq hc) h
  · simp [stripCR, hc]

/-- `linesAux` on newline-free input yields the single pending line (or
nothing when that line is empty). -/
theorem linesAux_no_nl : ∀ (T acc : List Char), '\n' ∉ T →
    linesAux acc T = if acc ++ T = [] then [] else [acc ++ T]
  | [], acc, _ => by simp [linesAux]
  | c :: rest, acc, h => by
    have hc : c ≠ '\n' := fun e => h (e ▸ List.mem_cons_self c rest)
    have ih := linesAux_no_nl rest (acc ++ [c]) (fun m => h (List.mem_cons_of_mem c m))
    simp [linesAux, hc, ih, List.append_assoc]

/-- `lines` of a nonempty newline-free string is that single line. -/
theorem lines_no_nl {T : List Char} (h : '\n' ∉ T) (hne : T ≠ []) :
    lines T = [T] := by
  unfold lines
  rw [linesAux_no_nl T [] h]
  simp [hne]

/-- Peeling one full line off the front of `linesAux`. -/
theorem linesAux_split : ∀ (a acc rest : List Char), '\n' ∉ a →
    linesAux acc (a ++ '\n' :: rest) = stripCR (acc ++ a) :: linesAux [] rest
  | [], acc, rest, _ => by simp [linesAux]
  | c :: as, acc, rest, h => by
    have hc : c ≠ '\n' := fun e => h (e ▸ List.mem_cons_self c as)
    have ih := linesAux_split as (acc ++ [c]) rest (fun m => h (List.mem_cons_of_mem c m))
    simp [linesAux, hc, ih, List.append_assoc]

/-- The image pass is the identity on strings without `[` (an `![` trigger
needs the bracket). -/
theorem imgAux_copy_id : ∀ {l : List Char}, '[' ∉ l → imgAux l .copy = l
  | [], _ => rfl
  | [_], _ => rfl
  | c1 :: c2 :: rest, h => by
    have h1 : ¬(c1 = '!' ∧ c2 = '[') := by
      rintro ⟨-, rfl⟩
      exact h (List.mem_cons_of_mem _ (List.mem_cons_self _ _))
    have ih := imgAux_copy_id (l := c2 :: rest) (fun m => h (List.mem_cons_of_mem _ m))
    simp [imgAux, h1, ih]

/-- The link pass is the identity on strings without `[`. -/
theorem linkAux_copy_id : ∀ {l : List Char}, '[' ∉ l → linkAux l .copy = l
  | [], _ => rfl
  | c :: rest, h => by
    have hc : c ≠ '[' := fun e => h (e ▸ List.mem_cons_self c rest)
    have ih := linkAux_copy_id (l := rest) (fun m => h (List.mem_cons_of_mem c m))
    simp [linkAux, hc, ih]

/-- The bold pass is the identity on strings without `*`. -/
theorem boldAux_none_id : ∀ {l : List Char}, '*' ∉ l → boldAux l none = l
  | [], _ => rfl
  | [_], _ => rfl
  | c1 :: c2 :: rest, h => by
    have h1 : ¬(c1 = '*' ∧ c2 = '*') := by
      rintro ⟨rfl, -⟩
      exact h (List.mem_cons_self _ _)
    have ih := boldAux_none_id (l := c2 :: rest) (fun m => h (List.mem_cons_of_mem _ m))
    simp [boldAux, h1, ih]

/-- The italic pass is the identity on strings without `*`. -/
theorem italAux_none_id : ∀ {l : List Char}, '*' ∉ l → italAux l none = l
  | [], _ => rfl
  | c :: rest, h => by
    have h1 : ¬(c = '*' ∧ rest.head? ≠ some '*') := by
      rintro ⟨rfl, -⟩
      exact h (List.mem_cons_self _ _)
    have ih := italAux_none_id (l := rest) (fun m => h (List.mem_cons_of_mem c m))
    simp [italAux, h1, ih]

/-- The whole inline processor is the identity on text without `*` and
`[`. -/
theorem process_inline_id {l : List Char} (hs : '*' ∉ l) (hb : '[' ∉ l) :
    process_inline_markdown l = l := by
  unfold process_inline_markdown parse_image parse_link parse_bold parse_italic
  rw [imgAux_copy_id hb, linkAux_copy_id hb, boldAux_none_id hs, italAux_none_id hs]

/-- An italic span opened but never closed re-emits the single opening
asterisk plus everything consumed, verbatim. -/
theorem italAux_unterminated : ∀ {l : List Char} (acc : List Char), '*' ∉ l →
    italAux l (some acc) = '*' :: (acc ++ l)
  | [], acc, _ => by simp [italAux]
  | c :: rest, acc, h => by
    have h1 : ¬(c = '*' ∧ rest.head? ≠ some '*') := by
      rintro ⟨rfl, -⟩
      exact h (List.mem_cons_self _ _)
    have ih := italAux_unterminated (l := rest) (acc ++ [c])
      (fun m => h (List.mem_cons_of_mem c m))
    simp [italAux, h1, ih]

/-- A bold span opened but never closed re-emits the two opening asterisks
plus everything consumed, verbatim. -/
theorem boldAux_unterminated : ∀ {l : List Char} (acc : List Char), '*' ∉ l →
    boldAux l (some acc) = '*' :: '*' :: (acc ++ l)
  | [], acc, _ => by simp [boldAux]
  | [c], acc, h => by simp [boldAux]
  | c1 :: c2 :: rest, acc, h => by
    have h1 : ¬(c1 = '*' ∧ c2 = '*') := by
      rintro ⟨rfl, -⟩
      exact h (List.mem_cons_self _ _)
    have ih := boldAux_unterminated (l := c2 :: rest) (acc ++ [c1])
      (fun m => h (List.mem_cons_of_mem _ m))
    simp [boldAux, h1, ih]

/-- A link whose `]` never arrives re-emits the opening bracket plus
everything consumed, verbatim. -/
theorem linkAux_text_unterminated : ∀ {l : List Char} (acc : List Char), ']' ∉ l →
    linkAux l (.intext acc) = '[' :: (acc ++ l)
  | [], acc, _ => by simp [linkAux]
  | [c], acc, h => by
    have hc : c ≠ ']' := fun e => h (e ▸ List.mem_cons_self _ _)
    simp [linkAux, hc]
  | c1 :: c2 :: rest, acc, h => by
    have hc : c1 ≠ ']' := fun e => h (e ▸ List.mem_cons_self _ _)
    have ih := linkAux_text_unterminated (l := c2 :: rest) (acc ++ [c1])
      (fun m => h (List.mem_cons_of_mem _ m))
    simp [linkAux, hc, ih]

/-- A link whose closing `)` never arrives re-emits `[text](` plus the
consumed URL characters, verbatim. -/
theorem linkAux_url_unterminated : ∀ {l : List Char} (ltext acc : List Char), ')' ∉ l →
    linkAux l (.inurl ltext acc) = '[' :: (ltext ++ (']' :: '(' :: (acc ++ l)))
  | [], ltext, acc, _ => by simp [linkAux]
  | c :: rest, ltext, acc, h => by
    have hc : c ≠ ')' := fun e => h (e ▸ List.mem_cons_self _ _)
    have ih := linkAux_url_unterminated (l := rest) ltext (acc ++ [c])
      (fun m => h (List.mem_cons_of_mem c m))
    simp [linkAux, hc, ih]

/-- An image whose `]` never arrives re-emits `![` plus everything
consumed, verbatim. -/
theorem imgAux_alt_unterminated : ∀ {l : List Char} (acc : List Char), ']' ∉ l →
    imgAux l (.inalt acc) = '!' :: '[' :: (acc ++ l)
  | [], acc, _ => by simp [imgAux]
  | [c], acc, h => by
    have hc : c ≠ ']' := fun e => h (e ▸ List.mem_cons_self _ _)
    simp [imgAux, hc]
  | c1 :: c2 :: rest, acc, h => by
    have hc : c1 ≠ ']' := fun e => h (e ▸ List.mem_cons_self _ _)
    have ih := imgAux_alt_unterminated (l := c2 :: rest) (acc ++ [c1])
      (fun m => h (List.mem_cons_of_mem _ m))
    simp [imgAux, hc, ih]

/-- An image whose closing `)` never arrives re-emits `![alt](` plus the
consumed URL characters, verbatim. -/
theorem imgAux_url_unterminated : ∀ {l : List Char} (alt acc : List Char), ')' ∉ l →
    imgAux l (.inurl alt acc) = '!' :: '[' :: (alt ++ (']' :: '(' :: (acc ++ l)))
  | [], alt, acc, _ => by simp [imgAux]
  | c :: rest, alt, acc, h => by
    have hc : c ≠ ')' := fun e => h (e ▸ List.mem_cons_self _ _)
    have ih := imgAux_url_unterminated (l := rest) alt (acc ++ [c])
      (fun m => h (List.mem_cons_of_mem c m))
    simp [imgAux, hc, ih]

/-- Once inside a code block, if no further line opens with a fence the
renderer emits nothing more: the accumulated buffer is never flushed. -/
theorem mdLines_in_code : ∀ (ls : List (List Char)) (buf : List Char),
    (∀ l ∈ ls, startsWith "```".data l = false) → mdLines (true, buf) ls = []
  | [], _, _ => rfl
  | l :: ls, buf, h => by
    have hl : startsWith "```".data l = false := h l (List.mem_cons_self _ _)
    have ih := mdLines_in_code ls (buf ++ (l ++ ['\n']))
      (fun x hx => h x (List.mem_cons_of_mem _ hx))
    simp [mdLines, mdLine, hl, ih]

/-- Shape of one emitted block: some prefix, then a newline-terminated
closing tag whose tag part does not itself end in a newline. -/
theorem emission_shape (a tagnl tag : List Char) (he : tagnl = tag ++ ['\n'])
    (hb : tag ≠ []) (hlast : tag.getLast? ≠ some '\n') :
    ∃ t, a ++ tagnl = t ++ ['\n'] ∧ t.getLast? ≠ some '\n' :=
  ⟨a ++ tag, by rw [he, ← List.append_assoc],
    by rw [List.getLast?_append_of_ne_nil a hb]; exact hlast⟩

/-- Every single line's emission is empty or is a block followed by
exactly one newline. -/
theorem mdLine_shape (st : Bool × List Char) (l : List Char) :
    (mdLine st l).2 = [] ∨
      ∃ t, (mdLine st l).2 = t ++ ['\n'] ∧ t.getLast? ≠ some '\n' := by
  obtain ⟨b, buf⟩ := st
  by_cases hf : startsWith "```".data l = true
  · cases b with
    | true =>
      refine Or.inr ?_
      have h := emission_shape ("<pre><code>".data ++ escape_html buf)
        "</code></pre>\n".data "</code></pre>".data (by decide) (by decide) (by decide)
      simpa [mdLine, hf] using h
    | false => exact Or.inl (by simp [mdLine, hf])
  · have hf2 : startsWith "```".data l = false := by simpa using hf
    cases b with
    | true => exact Or.inl (by simp [mdLine, hf2])
    | false =>
      cases h3 : stripPfx "### ".data (trim l) with
      | some c =>
        refine Or.inr ?_
        have h := emission_shape ("<h3>".data ++ process_inline_markdown c)
          "</h3>\n".data "</h3>".data (by decide) (by decide) (by decide)
        simpa [mdLine, hf2, h3] using h
      | none =>
        cases h2 : stripPfx "## ".data (trim l) with
        | some c =>
          refine Or.inr ?_
          have h := emission_shape ("<h2>".data ++ process_inline_markdown c)
            "</h2>\n".data "</h2>".data (by decide) (by decide) (by decide)
          simpa [mdLine, hf2, h3, h2] using h
        | none =>
          cases h1 : stripPfx "# ".data (trim l) with
          | some c =>
            refine Or.inr ?_
            have h := emission_shape ("<h1>".data ++ process_inline_markdown c)
              "</h1>\n".data "</h1>".data (by decide) (by decide) (by decide)
            simpa [mdLine, hf2, h3, h2, h1] using h
          | none =>
            cases hli : stripPfx "- ".data (trim l) with
            | some c =>
              refine Or.inr ?_
              have h := emission_shape ("<li>".data ++ process_inline_markdown c)
                "</li>\n".data "</li>".data (by decide) (by decide) (by decide)
              simpa [mdLine, hf2, h3, h2, h1, hli] using h
            | none =>
              by_cases ht : trim l = []
              · exact Or.inl (by simp [mdLine, hf2, h3, h2, h1, hli, ht, stripPfx])
              · refine Or.inr ?_
                have h := emission_shape
                  ("<p>".data ++ process_inline_markdown (trim l))
                  "</p>\n".data "</p>".data (by decide) (by decide) (by decide)
                simpa [mdLine, hf2, h3, h2, h1, hli, ht] using h

/-- Concatenating newline-terminated (or empty) pieces stays
newline-terminated (or empty). -/
theorem endsNL_append {a b : List Char} (ha : endsNL a) (hb : endsNL b) :
    endsNL (a ++ b) := by
  rcases hb with rfl | ⟨t, rfl⟩
  · simpa using ha
  · exact Or.inr ⟨a ++ t, by rw [List.append_assoc]⟩

/-- The renderer's whole output is empty or newline-terminated, from any
starting state. -/
theorem mdLines_endsNL : ∀ (ls : List (List Char)) (st : Bool × List Char),
    endsNL (mdLines st ls)
  | [], _ => Or.inl rfl
  | l :: ls, st => by
    have he : endsNL (mdLine st l).2 := by
      rcases mdLine_shape st l with h | ⟨t, ht, -⟩
      · exact Or.inl h
      · exact Or.inr ⟨t, ht⟩
    have ih := mdLines_endsNL ls (mdLine st l).1
    simpa [mdLines] using endsNL_append he ih

/-- C1, counterexample: the text `a<b` contains no markdown special
character, yet its paragraph rendering keeps the `<` unescaped, so
`html_content` does contain an unescaped reserved character that
originated from user text, contradicting the claimed invariant. -/
theorem C1_counterexample :
    markdown_to_html "a<b".data = "<p>a<b</p>\n".data ∧
    markdown_to_html "a<b".data ≠
      "<p>".data ++ escape_html "a<b".data ++ "</p>\n".data :=
  ⟨by decide, by decide⟩

/-- C1 (amended): escaping applies only to content captured inside inline
markup and code fences; for text containing no markdown special character,
each non-blank line renders as `<p>` plus the trimmed line verbatim
(unescaped) plus `</p>`. -/
theorem C1_paragraph_unescaped (T : List Char)
    (hs : ∀ c ∈ T, c ∉ mdSpecials) (hn : '\n' ∉ T) (ht : trim T ≠ []) :
    markdown_to_html T = "<p>".data ++ trim T ++ "</p>\n".data := by
  have hT : T ≠ [] := by
    intro he
    exact ht (by rw [he]; rfl)
  have hl : lines T = [T] := lines_no_nl hn hT
  have hbt : btick ∉ T := fun m => hs btick m (by decide)
  have hfence : startsWith "```".data T = false :=
    startsWith_false _ (by decide) hbt
  have hhash : '#' ∉ trim T := fun m => hs '#' (mem_of_mem_trim m) (by decide)
  have hdash : '-' ∉ trim T := fun m => hs '-' (mem_of_mem_trim m) (by decide)
  have h3 : stripPfx "### ".data (trim T) = none :=
    stripPfx_head_none _ (by decide) hhash
  have h2 : stripPfx "## ".data (trim T) = none :=
    stripPfx_head_none _ (by decide) hhash
  have h1 : stripPfx "# ".data (trim T) = none :=
    stripPfx_head_none _ (by decide) hhash
  have hli : stripPfx "- ".data (trim T) = none :=
    stripPfx_head_none _ (by decide) hdash
  have hpim : process_inline_markdown (trim T) = trim T :=
    process_inline_id (fun m => hs '*' (mem_of_mem_trim m) (by decide))
      (fun m => hs '[' (mem_of_mem_trim m) (by decide))
  unfold markdown_to_html
  rw [hl]
  simp [mdLines, mdLine, hfence, h3, h2, h1, hli, ht, hpim]

/-- C1 witness: instantiation of the amended claim at `a<b`. -/
theorem C1_paragraph_unescaped_witness :
    markdown_to_html "a<b".data = "<p>".data ++ trim "a<b".data ++ "</p>\n".data :=
  C1_paragraph_unescaped "a<b".data (by decide) (by decide) (by decide)

/-- C2, counterexample: the italic pass re-scans the bold pass's output,
so `**a*b*c**` does not stay `<strong>a*b*c</strong>`. -/
theorem C2_counterexample :
    process_inline_markdown "**a*b*c**".data ≠ "<strong>a*b*c</strong>".data := by
  decide

/-- C2 (amended): bold runs before italic, `**bold**` and `*x*` render as
claimed, and `**a*b*c**` consumes the bold span first, after which the
italic pass reprocesses the asterisks inside the emitted `<strong>`,
yielding `<strong>a<em>b</em>c</strong>`. -/
theorem C2_bold_before_italic :
    process_inline_markdown "**bold**".data = "<strong>bold</strong>".data ∧
    process_inline_markdown "*x*".data = "<em>x</em>".data ∧
    process_inline_markdown "**a*b*c**".data =
      "<strong>a<em>b</em>c</strong>".data :=
  ⟨by decide, by decide, by decide⟩

/-- C3, counterexample: the value `""x""` loses all four surrounding
quotes (Rust `trim_matches` strips repeatedly), while the claim predicts
that exactly one pair is stripped and `"x"` remains. -/
theorem C3_counterexample :
    (parse_post "s".data "---\ntitle: \"\"x\"\"\n---\n".data).map Post.title =
      some "x".data ∧
    (parse_post "s".data "---\ntitle: \"\"x\"\"\n---\n".data).map Post.title ≠
      some "\"x\"".data :=
  ⟨by decide, by decide⟩

/-- C3 (amended): the matched remainder of a frontmatter line has all its
leading and all its trailing double-quote characters stripped, repeatedly,
as `trim_matches` does — not just one surrounding pair. -/
theorem C3_quote_trimming (s v : List Char) (h1 : '\n' ∉ v) (h2 : '\r' ∉ v) :
    parse_post s ("---\ntitle: ".data ++ v ++ "\n---\n".data) =
      some ⟨trim_matches dq v, s, [], [], []⟩ := by
  have hnl2 : '\n' ∉ "title: ".data ++ v := by
    intro m
    rcases List.mem_append.mp m with m1 | m2
    · exact absurd m1 (by decide)
    · exact h1 m2
  have hcr : '\r' ∉ "title: ".data ++ v := by
    intro m
    rcases List.mem_append.mp m with m1 | m2
    · exact absurd m1 (by decide)
    · exact h2 m2
  have e1 : "---\ntitle: ".data ++ v ++ "\n---\n".data =
      "---".data ++ '\n' :: (("title: ".data ++ v) ++ '\n' :: ("---".data ++ '\n' :: [])) := by
    rfl
  have hl : lines ("---\ntitle: ".data ++ v ++ "\n---\n".data) =
      ["---".data, "title: ".data ++ v, "---".data] := by
    unfold lines
    rw [e1, linesAux_split _ _ _ (by decide), linesAux_split _ _ _ hnl2,
      linesAux_split _ _ _ (by decide)]
    simp only [List.nil_append]
    rw [stripCR_id hcr]
    simp only [stripCR_id (by decide : ('\r' : Char) ∉ "---".data)]
    simp [linesAux]
  have hne : "title: ".data ++ v ≠ "---".data := by
    intro e
    have hlen := congrArg List.length e
    rw [List.length_append] at hlen
    have h7 : ("title: ".data).length = 7 := by decide
    have h3 : ("---".data).length = 3 := by decide
    omega
  have hfm : lines (("title: ".data ++ v) ++ '\n' :: []) = ["title: ".data ++ v] := by
    unfold lines
    rw [linesAux_split _ _ _ hnl2]
    simp only [List.nil_append]
    rw [stripCR_id hcr]
    simp [linesAux]
  have hfb : fmBody true ["title: ".data ++ v, "---".data] =
      (("title: ".data ++ v) ++ '\n' :: [], []) := by
    simp [fmBody, hne]
  have hfold : List.foldl fmStep ([], [], []) ["title: ".data ++ v] =
      (trim_matches dq v, [], []) := by
    simp only [List.foldl]
    simp only [fmStep, stripPfx_append]
  simp only [parse_post, hl, hfb, hfm, hfold]
  simp [markdown_to_html, lines, linesAux, mdLines]

/-- C3 witness: the amended claim at the quadruple-quoted value. -/
theorem C3_quote_trimming_witness :
    parse_post "s".data ("---\ntitle: ".data ++ "\"\"x\"\"".data ++ "\n---\n".data) =
      some ⟨trim_matches dq "\"\"x\"\"".data, "s".data, [], [], []⟩ :=
  C3_quote_trimming "s".data "\"\"x\"\"".data (by decide) (by decide)

/-- C4, counterexample: a fence with leading whitespace is not recognised
(the source tests the untrimmed line), so ` ``` ` renders as a paragraph
and does appear in the output instead of toggling the code state. -/
theorem C4_counterexample :
    markdown_to_html " ```\nx\n".data = "<p>```</p>\n<p>x</p>\n".data ∧
    markdown_to_html " ```\nx\n".data ≠ [] :=
  ⟨by decide, by decide⟩

/-- C4 (amended): only lines that start with ``` at column zero are fence
lines; such a line emits nothing when opening and, when closing, flushes
the escaped buffer wrapped in pre/code followed by a newline and clears
the buffer, toggling the state either way. -/
theorem C4_fence_toggle (b : Bool) (buf l : List Char)
    (h : startsWith "```".data l = true) :
    mdLine (b, buf) l =
      ((!b, if b = true then [] else buf),
        if b = true then
          "<pre><code>".data ++ escape_html buf ++ "</code></pre>\n".data
        else []) := by
  cases b <;> simp [mdLine, h]

/-- C4 witness: closing a fence flushes and clears the buffer. -/
theorem C4_fence_toggle_witness :
    mdLine (true, "a&b\n".data) "```rust".data =
      ((false, []),
        "<pre><code>".data ++ escape_html "a&b\n".data ++ "</code></pre>\n".data) := by
  have h := C4_fence_toggle true "a&b\n".data "```rust".data (by decide)
  simpa using h

/-- C5, counterexample: the content handed to the inline processor comes
from the trimmed line, so trailing whitespace of `# a ` is removed, while
the claim predicts it kept. -/
theorem C5_counterexample :
    markdown_to_html "# a ".data = "<h1>a</h1>\n".data ∧
    markdown_to_html "# a ".data ≠ "<h1>a </h1>\n".data :=
  ⟨by decide, by decide⟩

/-- C5 (amended): Normal-state classification is evaluated in the fixed
priority order on the trimmed line, and the content passed onward is the
trimmed line after the matched prefix (the whole line's leading and
trailing whitespace having been removed first), the state being left
unchanged. -/
theorem C5_trimmed_classification (buf l : List Char)
    (hf : startsWith "```".data l = false) :
    mdLine (false, buf) l = ((false, buf), classifyNormal (trim l)) := by
  cases h3 : stripPfx "### ".data (trim l) with
  | some c => simp [mdLine, classifyNormal, hf, h3]
  | none =>
    cases h2 : stripPfx "## ".data (trim l) with
    | some c => simp [mdLine, classifyNormal, hf, h3, h2]
    | none =>
      cases h1 : stripPfx "# ".data (trim l) with
      | some c => simp [mdLine, classifyNormal, hf, h3, h2, h1]
      | none =>
        cases hli : stripPfx "- ".data (trim l) with
        | some c => simp [mdLine, classifyNormal, hf, h3, h2, h1, hli]
        | none =>
          by_cases ht : trim l = []
          · simp [mdLine, classifyNormal, hf, h3, h2, h1, hli, ht, stripPfx]
          · simp [mdLine, classifyNormal, hf, h3, h2, h1, hli, ht]

/-- C5 witness: instantiation at a line with surrounding whitespace. -/
theorem C5_trimmed_classification_witness :
    mdLine (false, []) "  # hi  ".data =
      ((false, []), classifyNormal (trim "  # hi  ".data)) :=
  C5_trimmed_classification [] "  # hi  ".data (by decide)

/-- C6: every inline pass that finds an opening delimiter but no
well-formed closing delimiter before the line ends re-emits the opening
delimiters and the consumed span literally and unescaped, dropping no
characters; in particular `*unterminated` round-trips unchanged. -/
theorem C6_unterminated_lossless :
    (∀ (l acc : List Char), '*' ∉ l →
      italAux l (some acc) = '*' :: (acc ++ l)) ∧
    (∀ (l acc : List Char), '*' ∉ l →
      boldAux l (some acc) = '*' :: '*' :: (acc ++ l)) ∧
    (∀ (l acc : List Char), ']' ∉ l →
      linkAux l (.intext acc) = '[' :: (acc ++ l)) ∧
    (∀ (l ltext acc : List Char), ')' ∉ l →
      linkAux l (.inurl ltext acc) =
        '[' :: (ltext ++ (']' :: '(' :: (acc ++ l)))) ∧
    (∀ (l acc : List Char), ']' ∉ l →
      imgAux l (.inalt acc) = '!' :: '[' :: (acc ++ l)) ∧
    (∀ (l alt acc : List Char), ')' ∉ l →
      imgAux l (.inurl alt acc) =
        '!' :: '[' :: (alt ++ (']' :: '(' :: (acc ++ l)))) ∧
    process_inline_markdown "*unterminated".data = "*unterminated".data :=
  ⟨fun _ acc h => italAux_unterminated acc h,
   fun _ acc h => boldAux_unterminated acc h,
   fun _ acc h => linkAux_text_unterminated acc h,
   fun _ ltext acc h => linkAux_url_unterminated ltext acc h,
   fun _ acc h => imgAux_alt_unterminated acc h,
   fun _ alt acc h => imgAux_url_unterminated alt acc h,
   by decide⟩

/-- C6 witness: each fallback instantiated at concrete inputs. -/
theorem C6_witness :
    italAux "unterminated".data (some []) =
      '*' :: ([] ++ "unterminated".data) ∧
    boldAux "x(".data (some []) = '*' :: '*' :: ([] ++ "x(".data) ∧
    linkAux "text".data (.intext []) = '[' :: ([] ++ "text".data) ∧
    linkAux "url".data (.inurl "t".data []) =
      '[' :: ("t".data ++ (']' :: '(' :: ([] ++ "url".data))) ∧
    imgAux "alt".data (.inalt []) = '!' :: '[' :: ([] ++ "alt".data) ∧
    imgAux "url".data (.inurl "a".data []) =
      '!' :: '[' :: ("a".data ++ (']' :: '(' :: ([] ++ "url".data))) ∧
    process_inline_markdown "*unterminated".data = "*unterminated".data :=
  ⟨C6_unterminated_lossless.1 _ _ (by decide),
   C6_unterminated_lossless.2.1 _ _ (by decide),
   C6_unterminated_lossless.2.2.1 _ _ (by decide),
   C6_unterminated_lossless.2.2.2.1 _ _ _ (by decide),
   C6_unterminated_lossless.2.2.2.2.1 _ _ (by decide),
   C6_unterminated_lossless.2.2.2.2.2.1 _ _ _ (by decide),
   C6_unterminated_lossless.2.2.2.2.2.2⟩

/-- C7: once a fence is opened and no later line starts a fence, nothing
more is emitted — the buffered lines are silently discarded, with no
trailing partial code block and no error; end-to-end example included. -/
theorem C7_unclosed_fence_discarded :
    (∀ (buf : List Char) (ls : List (List Char)),
      (∀ l ∈ ls, startsWith "```".data l = false) →
        mdLines (true, buf) ls = []) ∧
    markdown_to_html "# t\n```\nsecret\n".data = "<h1>t</h1>\n".data :=
  ⟨fun buf ls h => mdLines_in_code ls buf h, by decide⟩

/-- C7 witness: lines after an unclosed fence produce no output. -/
theorem C7_witness :
    mdLines (true, "x\n".data) ["a".data, "b".data] = [] :=
  C7_unclosed_fence_discarded.1 "x\n".data ["a".data, "b".data] (by decide)

/-- C8: the image pass precedes the link pass, images are not misparsed as
links, links render as claimed, and captured URLs/text pass through the
HTML escaper (shown by the ampersand example). -/
theorem C8_image_before_link :
    process_inline_markdown "![alt](pic.png)".data =
      "<img src=\"pic.png\" alt=\"alt\" />".data ∧
    process_inline_markdown "[text](url)".data =
      "<a href=\"url\">text</a>".data ∧
    process_inline_markdown "[a&b](u&v)".data =
      "<a href=\"u&amp;v\">a&amp;b</a>".data :=
  ⟨by decide, by decide, by decide⟩

/-- C9: if the first line of the input is not exactly `---` (including the
case of an input with no lines at all), the post extractor returns
nothing. -/
theorem C9_missing_delimiter (slug content : List Char)
    (h : (lines content).head? ≠ some "---".data) :
    parse_post slug content = none := by
  cases hl : lines content with
  | nil => simp [parse_post, hl]
  | cons first rest =>
    have hne : first ≠ "---".data := by
      rw [hl] at h
      simpa using h
    simp [parse_post, hl, hne]

/-- C9 witness: the spec's own example input yields no post. -/
theorem C9_witness : parse_post "s".data "Hello\nworld".data = none :=
  C9_missing_delimiter "s".data "Hello\nworld".data (by decide)

/-- C10: each emitted block is followed by exactly one newline, and the
whole rendered output is empty or ends with a newline. -/
theorem C10_newline_terminated :
    (∀ (st : Bool × List Char) (l : List Char),
      (mdLine st l).2 = [] ∨
        ∃ t, (mdLine st l).2 = t ++ ['\n'] ∧ t.getLast? ≠ some '\n') ∧
    (∀ m : List Char,
      markdown_to_html m = [] ∨ ∃ t, markdown_to_html m = t ++ ['\n']) :=
  ⟨mdLine_shape, fun m => mdLines_endsNL (lines m) (false, [])⟩

end Blog
